import Mathlib

/-!
Verification of the authorization-state reconciliation core of
`safe_authenticator/src/ffi/apps.rs` (iancoleman/sn_client).

The source file's decision logic is embedded shallowly:

* cryptographic and codec collaborators (`access_container_enc_key`,
  `symmetric_decrypt`, `deserialise`) are abstract fallible functions
  bundled in an `Env`;
* the access container's entry set (the result of `list_mdata_entries`)
  is a partial map from derived lookup key to stored ciphertext;
* the config registry (the result of `config::list_apps`) is a list of
  `AppInfo` records (the `HashMap` values, keyed by app id);
* FFI marshaling (`into_repr_c`, `vec_into_raw_parts`,
  `containers_into_vec`'s C conversion, pointer/len/cap triples) is out
  of scope per the specification and is dropped from the embedding;
* each exposed operation becomes a function returning
  `Except AuthError _`, mirroring the continuation chain's first-error
  short-circuiting: the success callback fires only at the end of the
  pipeline, so an `Except.error` result models "error callback invoked,
  no entries emitted".
-/

/-- Raw byte strings (stored ciphertext, plaintext). -/
abbrev Bytes := List Nat

/-- Public signing keys (`rust_sodium::crypto::sign::PublicKey`), abstract. -/
abbrev PubKey := Nat

/-- Per-app symmetric encryption keys, abstract. -/
abbrev SymKey := Nat

/-- The shared access-container nonce, abstract. -/
abbrev Nonce := Nat

/-- Derived lookup keys into the access container
(the output of `access_container_enc_key`), abstract. -/
abbrev LookupKey := Nat

/-- Permission bitsets, abstract. -/
abbrev PermSet := Nat

/-- `AppExchangeInfo`: app identity and display metadata. -/
structure AppExchangeInfo where
  id : String
  name : String
deriving DecidableEq, Repr

/-- `AppKeys`: the per-app symmetric encryption key and the
asymmetric owner/signing public key. -/
structure AppKeys where
  enc_key : SymKey
  owner_key : PubKey
deriving DecidableEq, Repr

/-- `AppInfo`: one record of the config registry. -/
structure AppInfo where
  info : AppExchangeInfo
  keys : AppKeys
deriving DecidableEq, Repr

/-- The config registry's value set, in iteration order
(`auth_cfg.values()`); app ids are unique when the registry is
well-formed, stated as a `Nodup` hypothesis where needed. -/
abbrev Registry := List AppInfo

/-- The access container's full entry set as fetched by
`list_mdata_entries`: derived key to stored `Value.content`. -/
abbrev Entries := LookupKey → Option Bytes

/-- The decrypted, deserialized `AccessContainerEntry`:
container name to (container reference, permission bitset). -/
abbrev AccessContainerEntry := List (String × (Nat × PermSet))

/-- `AuthError`, restricted to the variants this file produces.
`unexpected` embeds `AuthError::from(&str)`. -/
inductive AuthError where
  | unexpected (msg : String)
  | ipcUnknownApp
  | encodingError
  | decryptionError
  | deserializationError
deriving DecidableEq, Repr

/-- The error raised when `access_container.nonce()` is `None`. -/
def noNonceError : AuthError :=
  .unexpected "No nonce on access container's MDataInfo"

/-- The error raised by the revocation guard on an `Authenticated` app. -/
def appNotRevokedError : AuthError :=
  .unexpected "App is not revoked"

/-- Abstract collaborators: key derivation, symmetric decryption and
deserialization, each fallible exactly as in the source. -/
structure Env where
  deriveKey : String → SymKey → Nonce → Except AuthError LookupKey
  decrypt : Bytes → SymKey → Except AuthError Bytes
  deser : Bytes → Except AuthError AccessContainerEntry

/-- The inline revoked test of both listings:
`entries.get(&key).map(|entry| entry.content.is_empty()).unwrap_or(true)`. -/
def entryRevoked (entries : Entries) (key : LookupKey) : Bool :=
  match entries key with
  | some content => content.isEmpty
  | none => true

/-- The per-app body of the loop in `auth_revoked_apps` (lines 144-157),
sequenced over the registry: derive the key (aborting the whole call on
error), test the entry, and keep `app.info` when revoked. -/
def revokedAppsLoop (env : Env) (nonce : Nonce) (entries : Entries) :
    Registry → Except AuthError (List AppExchangeInfo)
  | [] => .ok []
  | app :: rest =>
    match env.deriveKey app.info.id app.keys.enc_key nonce with
    | .error e => .error e
    | .ok key =>
      match revokedAppsLoop env nonce entries rest with
      | .error e => .error e
      | .ok tail =>
        .ok (if entryRevoked entries key then app.info :: tail else tail)

/-- `auth_revoked_apps`, from the point where registry, access-container
info and entry set have been fetched: check the nonce, then run the loop. -/
def auth_revoked_apps (env : Env) (nonceOpt : Option Nonce)
    (entries : Entries) (auth_cfg : Registry) :
    Except AuthError (List AppExchangeInfo) :=
  match nonceOpt with
  | none => .error noNonceError
  | some nonce => revokedAppsLoop env nonce entries auth_cfg

/-- One entry of the registered-apps listing (FFI len/cap fields dropped). -/
structure RegisteredApp where
  app_info : AppExchangeInfo
  containers : List (String × PermSet)
deriving DecidableEq, Repr

/-- The per-app body of the loop in `auth_registered_apps` (lines
206-234): derive the key, treat an absent or empty entry as skipped,
otherwise decrypt, deserialize, and project (container name, perms). -/
def registeredAppsLoop (env : Env) (nonce : Nonce) (entries : Entries) :
    Registry → Except AuthError (List RegisteredApp)
  | [] => .ok []
  | app :: rest =>
    match env.deriveKey app.info.id app.keys.enc_key nonce with
    | .error e => .error e
    | .ok key =>
      match (match entries key with
             | some content =>
               if content.isEmpty then none else some content
             | none => none) with
      | some content =>
        match env.decrypt content app.keys.enc_key with
        | .error e => .error e
        | .ok plaintext =>
          match env.deser plaintext with
          | .error e => .error e
          | .ok app_access =>
            match registeredAppsLoop env nonce entries rest with
            | .error e => .error e
            | .ok tail =>
              .ok ({ app_info := app.info
                     containers := app_access.map (fun p => (p.1, p.2.2)) }
                   :: tail)
      | none => registeredAppsLoop env nonce entries rest

/-- `auth_registered_apps`, from the point where registry, access-container
info and entry set have been fetched. -/
def auth_registered_apps (env : Env) (nonceOpt : Option Nonce)
    (entries : Entries) (auth_cfg : Registry) :
    Except AuthError (List RegisteredApp) :=
  match nonceOpt with
  | none => .error noNonceError
  | some nonce => registeredAppsLoop env nonce entries auth_cfg

/-- The revoked decision both listing loops compute inline for one
registry record: derive the key and test the entry. `false` when
derivation fails — in that case the listings abort as a whole. -/
def inlineRevoked (env : Env) (nonce : Nonce) (entries : Entries)
    (a : AppInfo) : Bool :=
  match env.deriveKey a.info.id a.keys.enc_key nonce with
  | .ok key => entryRevoked entries key
  | .error _ => false

/-- `AppState`, the three-way classification from `app_auth`. -/
inductive AppState where
  | NotAuthenticated
  | Authenticated
  | Revoked
deriving DecidableEq, Repr

/-- Registry lookup by app id (`config.get(&app_id)` on the id-keyed map). -/
def lookupById (cfg : Registry) (app_id : String) : Option AppInfo :=
  cfg.find? (fun a => a.info.id == app_id)

/-- Modelled from the spec: `app_state` of `app_auth` is not under `src/`
(only its caller `auth_rm_revoked_app` is). Per spec sections 3, 4.2 and
4.3: an id absent from the registry is `NotAuthenticated`; otherwise the
app's access-container entry is resolved by the derived key — absent or
empty stored content means "no access", hence `Revoked`; a non-empty
entry is decrypted and deserialized (failures are hard errors, never
treated as absence) and yields `Authenticated`. -/
def app_state (env : Env) (nonceOpt : Option Nonce) (entries : Entries)
    (cfg : Registry) (app_id : String) : Except AuthError AppState :=
  match lookupById cfg app_id with
  | none => .ok .NotAuthenticated
  | some app =>
    match nonceOpt with
    | none => .error noNonceError
    | some nonce =>
      match env.deriveKey app_id app.keys.enc_key nonce with
      | .error e => .error e
      | .ok key =>
        match entries key with
        | none => .ok .Revoked
        | some content =>
          if content.isEmpty then .ok .Revoked
          else
            match env.decrypt content app.keys.enc_key with
            | .error e => .error e
            | .ok plaintext =>
              match env.deser plaintext with
              | .error e => .error e
              | .ok _ => .ok .Authenticated

/-- Modelled from the spec: `config::next_version` is not under `src/`.
Spec section 4.1: pure helper `next_version(v) = v + 1`. -/
def next_version (v : Nat) : Nat := v + 1

/-- Observable state of the two stores plus the teardown call trace,
threaded through the revocation executor. `teardownCalls` records each
invocation of `app_container::remove` (the external
`teardown_private_container` collaborator). -/
structure St where
  version : Nat
  registry : Registry
  entries : Entries
  teardownCalls : List String

/-- Modelled from the spec: `config::remove_app` is not under `src/`.
Spec section 4.1: writes a registry snapshot with the app removed,
conditioned on the expected next version; fails `UnknownApp` if the id
was already absent from the supplied snapshot. In this single-writer
model the store never advances concurrently, so the write lands and the
store's version becomes the written one. -/
def remove_app (st : St) (apps : Registry) (new_version : Nat)
    (app_id : String) : Except AuthError St :=
  match lookupById apps app_id with
  | none => .error .ipcUnknownApp
  | some _ =>
    .ok { st with
          version := new_version
          registry := apps.filter (fun a => !(a.info.id == app_id)) }

/-- `auth_rm_revoked_app` (lines 89-107) as a state transition:
list apps, classify, guard (`Revoked` proceeds, `Authenticated` fails
`AppNotRevoked`, `NotAuthenticated` fails `UnknownApp`), remove at
`next_version`, then tear down the app's private container.
`teardownErr app_id = some e` makes the external teardown collaborator
fail with `e`; the call is recorded in `teardownCalls` either way. -/
def auth_rm_revoked_app (env : Env) (nonceOpt : Option Nonce)
    (teardownErr : String → Option AuthError) (st : St) (app_id : String) :
    Except AuthError Unit × St :=
  let apps_version := st.version
  let apps := st.registry
  match app_state env nonceOpt st.entries apps app_id with
  | .error e => (.error e, st)
  | .ok s =>
    match s with
    | .Authenticated => (.error appNotRevokedError, st)
    | .NotAuthenticated => (.error .ipcUnknownApp, st)
    | .Revoked =>
      match remove_app st apps (next_version apps_version) app_id with
      | .error e => (.error e, st)
      | .ok st' =>
        let st'' := { st' with teardownCalls := st'.teardownCalls ++ [app_id] }
        match teardownErr app_id with
        | some e => (.error e, st'')
        | none => (.ok (), st'')

/-- `routing::User`: the "anyone" sentinel or an individual public key. -/
inductive User where
  | anyone
  | key (pk : PubKey)
deriving DecidableEq, Repr

/-- One output record of `auth_apps_accessing_mutable_data`
(`AppAccess`): `name`/`app_id` are filled only for identified apps. -/
structure AppAccess where
  sign_key : PubKey
  permissions : PermSet
  name : Option String
  app_id : Option String
deriving DecidableEq, Repr

/-- The re-keying step (lines 273-278): `collect` of
`(owner_key, info)` pairs into a `HashMap`, where a later insert for the
same key replaces the earlier one — so lookup finds the last registry
record with that owner key. -/
def rekeyApps (cfg : Registry) (pk : PubKey) : Option AppExchangeInfo :=
  (cfg.reverse.find? (fun a => a.keys.owner_key == pk)).map (fun a => a.info)

/-- `auth_apps_accessing_mutable_data` (lines 280-311), from the point
where the object's permission records and the registry have been
fetched: skip "anyone" principals; identify keyed principals against
the re-keyed registry, anonymous otherwise. -/
def auth_apps_accessing_mutable_data (perms : List (User × PermSet))
    (cfg : Registry) : List AppAccess :=
  perms.filterMap fun p =>
    match p.1 with
    | .anyone => none
    | .key public_key =>
      some (match rekeyApps cfg public_key with
        | some app_info =>
          { sign_key := public_key
            permissions := p.2
            name := some app_info.name
            app_id := some app_info.id }
        | none =>
          { sign_key := public_key
            permissions := p.2
            name := none
            app_id := none })

/-- The single output record built for a keyed principal: identified
when the re-keyed registry has its public key, anonymous otherwise
(the two `AppAccess` literals of lines 288-307). -/
def accessRecord (cfg : Registry) (pk : PubKey) (pset : PermSet) :
    AppAccess :=
  match rekeyApps cfg pk with
  | some app_info =>
    { sign_key := pk
      permissions := pset
      name := some app_info.name
      app_id := some app_info.id }
  | none =>
    { sign_key := pk
      permissions := pset
      name := none
      app_id := none }

/-! Concrete fixtures used to instantiate the theorems below. -/

/-- A benign environment: the derived lookup key is the app's symmetric
key, decryption is the identity, deserialization yields one container. -/
def envA : Env where
  deriveKey := fun _ s _ => .ok s
  decrypt := fun c _ => .ok c
  deser := fun b => .ok [("docs", (0, b.length))]

/-- Same key derivation as `envA`, but decryption and deserialization
always fail (corrupt stored data). -/
def envB : Env where
  deriveKey := fun _ s _ => .ok s
  decrypt := fun _ _ => .error .decryptionError
  deser := fun _ => .error .deserializationError

/-- Same as `envA` except key derivation fails for app id "b". -/
def envF : Env where
  deriveKey := fun i s _ => if i = "b" then .error .encodingError else .ok s
  decrypt := fun c _ => .ok c
  deser := fun b => .ok [("docs", (0, b.length))]

/-- An environment whose deserializer returns an empty permission set
for every plaintext. -/
def envC2 : Env where
  deriveKey := fun _ s _ => .ok s
  decrypt := fun c _ => .ok c
  deser := fun _ => .ok []

/-- App "a": symmetric key 1, owner key 10. -/
def appA1 : AppInfo := ⟨⟨"a", "A"⟩, ⟨1, 10⟩⟩

/-- App "b": symmetric key 2, owner key 20. -/
def appA2 : AppInfo := ⟨⟨"b", "B"⟩, ⟨2, 20⟩⟩

/-- A two-app registry. -/
def cfgA : Registry := [appA1, appA2]

/-- Entries: app "a" has a non-empty stored entry, app "b" has none. -/
def entriesA : Entries := fun k => if k = 1 then some [9] else none

/-- A store state over `cfgA` and `entriesA` at version 5. -/
def stA : St := ⟨5, cfgA, entriesA, []⟩

/-- Teardown collaborator that always succeeds. -/
def teNone : String → Option AuthError := fun _ => none

/-- Teardown collaborator that always fails. -/
def teFail : String → Option AuthError :=
  fun _ => some (.unexpected "failed to remove app container")

/-- Object permission records: the "anyone" sentinel, a principal
matching `appA1`'s owner key, and an unknown principal. -/
def permsA : List (User × PermSet) :=
  [(.anyone, 7), (.key 10, 3), (.key 99, 4)]

/-- Two registry records sharing owner key 10. -/
def cfgDup : Registry := [⟨⟨"a", "A"⟩, ⟨1, 10⟩⟩, ⟨⟨"b", "B"⟩, ⟨2, 10⟩⟩]

/-! Helper lemmas. -/

lemma except_error_of_not_ok {α β : Type} {x : Except α β}
    (h : ∀ b, x ≠ .ok b) : ∃ e, x = .error e := by
  cases x with
  | error e => exact ⟨e, rfl⟩
  | ok b => exact absurd rfl (h b)

lemma lookupById_of_mem :
    ∀ {cfg : Registry} {a : AppInfo},
      (cfg.map (fun x => x.info.id)).Nodup → a ∈ cfg →
      lookupById cfg a.info.id = some a := by
  intro cfg
  induction cfg with
  | nil => intro a _ ha; simp at ha
  | cons b rest ih =>
    intro a hnd ha
    have hni : b.info.id ∉ rest.map (fun x => x.info.id) :=
      (List.nodup_cons.mp hnd).1
    have hnd' : (rest.map (fun x => x.info.id)).Nodup :=
      (List.nodup_cons.mp hnd).2
    rcases List.mem_cons.mp ha with rfl | ha
    · simp [lookupById, List.find?]
    · have hne : (b.info.id == a.info.id) = false := by
        apply beq_false_of_ne
        intro hcontra
        exact hni (List.mem_map.mpr ⟨a, ha, hcontra.symm⟩)
      simpa [lookupById, List.find?, hne] using ih hnd' ha

lemma revokedAppsLoop_deriveOk {env : Env} {nonce : Nonce}
    {entries : Entries} :
    ∀ {cfg : Registry} {l : List AppExchangeInfo},
      revokedAppsLoop env nonce entries cfg = .ok l →
      ∀ a ∈ cfg, ∃ k, env.deriveKey a.info.id a.keys.enc_key nonce = .ok k := by
  intro cfg
  induction cfg with
  | nil => intro l _ a ha; simp at ha
  | cons app rest ih =>
    intro l h a ha
    cases hd : env.deriveKey app.info.id app.keys.enc_key nonce with
    | error e => simp [revokedAppsLoop, hd] at h
    | ok key =>
      cases ht : revokedAppsLoop env nonce entries rest with
      | error e => simp [revokedAppsLoop, hd, ht] at h
      | ok tail =>
        rcases List.mem_cons.mp ha with rfl | ha
        · exact ⟨key, hd⟩
        · exact ih ht a ha

lemma revokedAppsLoop_mem_src {env : Env} {nonce : Nonce}
    {entries : Entries} :
    ∀ {cfg : Registry} {l : List AppExchangeInfo},
      revokedAppsLoop env nonce entries cfg = .ok l →
      ∀ x ∈ l, ∃ a, a ∈ cfg ∧ a.info = x := by
  intro cfg
  induction cfg with
  | nil =>
    intro l h x hx
    simp [revokedAppsLoop] at h
    subst h
    simp at hx
  | cons app rest ih =>
    intro l h x hx
    cases hd : env.deriveKey app.info.id app.keys.enc_key nonce with
    | error e => simp [revokedAppsLoop, hd] at h
    | ok key =>
      cases ht : revokedAppsLoop env nonce entries rest with
      | error e => simp [revokedAppsLoop, hd, ht] at h
      | ok tail =>
        cases hr : entryRevoked entries key with
        | true =>
          simp [revokedAppsLoop, hd, ht, hr] at h
          subst h
          rcases List.mem_cons.mp hx with rfl | hx
          · exact ⟨app, List.mem_cons_self _ _, rfl⟩
          · obtain ⟨a, ha, rfl⟩ := ih ht x hx
            exact ⟨a, List.mem_cons_of_mem _ ha, rfl⟩
        | false =>
          simp [revokedAppsLoop, hd, ht, hr] at h
          subst h
          obtain ⟨a, ha, rfl⟩ := ih ht x hx
          exact ⟨a, List.mem_cons_of_mem _ ha, rfl⟩

lemma revokedAppsLoop_mem_iff {env : Env} {nonce : Nonce}
    {entries : Entries} :
    ∀ {cfg : Registry} {l : List AppExchangeInfo},
      (cfg.map (fun a => a.info.id)).Nodup →
      revokedAppsLoop env nonce entries cfg = .ok l →
      ∀ a ∈ cfg,
        (a.info ∈ l ↔ inlineRevoked env nonce entries a = true) := by
  intro cfg
  induction cfg with
  | nil => intro l _ _ a ha; simp at ha
  | cons app rest ih =>
    intro l hnd h a ha
    have hni : app.info.id ∉ rest.map (fun a => a.info.id) :=
      (List.nodup_cons.mp hnd).1
    have hnd' : (rest.map (fun a => a.info.id)).Nodup :=
      (List.nodup_cons.mp hnd).2
    cases hd : env.deriveKey app.info.id app.keys.enc_key nonce with
    | error e => simp [revokedAppsLoop, hd] at h
    | ok key =>
      cases ht : revokedAppsLoop env nonce entries rest with
      | error e => simp [revokedAppsLoop, hd, ht] at h
      | ok tail =>
        cases hr : entryRevoked entries key with
        | true =>
          simp [revokedAppsLoop, hd, ht, hr] at h
          subst h
          rcases List.mem_cons.mp ha with rfl | ha
          · constructor
            · intro _; simp [inlineRevoked, hd, hr]
            · intro _; exact List.mem_cons_self _ _
          · have hiff := ih hnd' ht a ha
            constructor
            · intro hx
              rcases List.mem_cons.mp hx with heq | hx
              · exact absurd (List.mem_map.mpr ⟨a, ha, by rw [heq]⟩) hni
              · exact hiff.mp hx
            · intro hir
              exact List.mem_cons_of_mem _ (hiff.mpr hir)
        | false =>
          simp [revokedAppsLoop, hd, ht, hr] at h
          subst h
          rcases List.mem_cons.mp ha with rfl | ha
          · constructor
            · intro hx
              obtain ⟨a', ha', heq⟩ := revokedAppsLoop_mem_src ht a.info hx
              exact absurd (List.mem_map.mpr ⟨a', ha', by rw [heq]⟩) hni
            · intro hir
              simp [inlineRevoked, hd, hr] at hir
          · exact ih hnd' ht a ha

lemma registeredAppsLoop_stepsOk {env : Env} {nonce : Nonce}
    {entries : Entries} :
    ∀ {cfg : Registry} {l : List RegisteredApp},
      registeredAppsLoop env nonce entries cfg = .ok l →
      ∀ a ∈ cfg, ∃ k, env.deriveKey a.info.id a.keys.enc_key nonce = .ok k ∧
        ∀ content, entries k = some content → content.isEmpty = false →
          ∃ pt ac, env.decrypt content a.keys.enc_key = .ok pt ∧
            env.deser pt = .ok ac := by
  intro cfg
  induction cfg with
  | nil => intro l _ a ha; simp at ha
  | cons app rest ih =>
    intro l h a ha
    cases hd : env.deriveKey app.info.id app.keys.enc_key nonce with
    | error e => simp [registeredAppsLoop, hd] at h
    | ok key =>
      cases he : entries key with
      | none =>
        simp only [registeredAppsLoop, hd, he] at h
        rcases List.mem_cons.mp ha with rfl | ha
        · exact ⟨key, hd, fun c hc _ => by rw [he] at hc; cases hc⟩
        · exact ih h a ha
      | some content =>
        cases hemp : content.isEmpty with
        | true =>
          simp only [registeredAppsLoop, hd, he, hemp] at h
          rcases List.mem_cons.mp ha with rfl | ha
          · refine ⟨key, hd, fun c hc hce => ?_⟩
            rw [he] at hc
            cases hc
            rw [hemp] at hce
            cases hce
          · exact ih h a ha
        | false =>
          cases hdc : env.decrypt content app.keys.enc_key with
          | error e => simp [registeredAppsLoop, hd, he, hemp, hdc] at h
          | ok pt =>
            cases hds : env.deser pt with
            | error e =>
              simp [registeredAppsLoop, hd, he, hemp, hdc, hds] at h
            | ok ac =>
              cases ht : registeredAppsLoop env nonce entries rest with
              | error e =>
                simp [registeredAppsLoop, hd, he, hemp, hdc, hds, ht] at h
              | ok tail =>
                rcases List.mem_cons.mp ha with rfl | ha
                · refine ⟨key, hd, fun c hc _ => ?_⟩
                  rw [he] at hc
                  cases hc
                  exact ⟨pt, ac, hdc, hds⟩
                · exact ih ht a ha

lemma registeredAppsLoop_mem_src {env : Env} {nonce : Nonce}
    {entries : Entries} :
    ∀ {cfg : Registry} {l : List RegisteredApp},
      registeredAppsLoop env nonce entries cfg = .ok l →
      ∀ r ∈ l, ∃ a, a ∈ cfg ∧ a.info = r.app_info := by
  intro cfg
  induction cfg with
  | nil =>
    intro l h r hr
    simp [registeredAppsLoop] at h
    subst h
    simp at hr
  | cons app rest ih =>
    intro l h r hr
    cases hd : env.deriveKey app.info.id app.keys.enc_key nonce with
    | error e => simp [registeredAppsLoop, hd] at h
    | ok key =>
      cases he : entries key with
      | none =>
        simp only [registeredAppsLoop, hd, he] at h
        obtain ⟨a, ha, heq⟩ := ih h r hr
        exact ⟨a, List.mem_cons_of_mem _ ha, heq⟩
      | some content =>
        cases hemp : content.isEmpty with
        | true =>
          simp only [registeredAppsLoop, hd, he, hemp] at h
          obtain ⟨a, ha, heq⟩ := ih h r hr
          exact ⟨a, List.mem_cons_of_mem _ ha, heq⟩
        | false =>
          cases hdc : env.decrypt content app.keys.enc_key with
          | error e => simp [registeredAppsLoop, hd, he, hemp, hdc] at h
          | ok pt =>
            cases hds : env.deser pt with
            | error e =>
              simp [registeredAppsLoop, hd, he, hemp, hdc, hds] at h
            | ok ac =>
              cases ht : registeredAppsLoop env nonce entries rest with
              | error e =>
                simp [registeredAppsLoop, hd, he, hemp, hdc, hds, ht] at h
              | ok tail =>
                simp [registeredAppsLoop, hd, he, hemp, hdc, hds, ht] at h
                subst h
                rcases List.mem_cons.mp hr with rfl | hr
                · exact ⟨app, List.mem_cons_self _ _, rfl⟩
                · obtain ⟨a, ha, heq⟩ := ih ht r hr
                  exact ⟨a, List.mem_cons_of_mem _ ha, heq⟩

lemma registeredAppsLoop_mem_iff {env : Env} {nonce : Nonce}
    {entries : Entries} :
    ∀ {cfg : Registry} {l : List RegisteredApp},
      (cfg.map (fun a => a.info.id)).Nodup →
      registeredAppsLoop env nonce entries cfg = .ok l →
      ∀ a ∈ cfg,
        (a.info ∈ l.map (fun r => r.app_info) ↔
          inlineRevoked env nonce entries a = false) := by
  intro cfg
  induction cfg with
  | nil => intro l _ _ a ha; simp at ha
  | cons app rest ih =>
    intro l hnd h a ha
    have hni : app.info.id ∉ rest.map (fun a => a.info.id) :=
      (List.nodup_cons.mp hnd).1
    have hnd' : (rest.map (fun a => a.info.id)).Nodup :=
      (List.nodup_cons.mp hnd).2
    cases hd : env.deriveKey app.info.id app.keys.enc_key nonce with
    | error e => simp [registeredAppsLoop, hd] at h
    | ok key =>
      have skipCase :
          registeredAppsLoop env nonce entries rest = .ok l →
          entryRevoked entries key = true →
          (a.info ∈ l.map (fun r => r.app_info) ↔
            inlineRevoked env nonce entries a = false) := by
        intro h' hrv
        rcases List.mem_cons.mp ha with rfl | ha
        · constructor
          · intro hx
            obtain ⟨r, hrl, hr⟩ := List.mem_map.mp hx
            obtain ⟨a', ha', heq⟩ := registeredAppsLoop_mem_src h' r hrl
            refine absurd (List.mem_map.mpr ⟨a', ha', ?_⟩) hni
            rw [heq, hr]
          · intro hir
            simp [inlineRevoked, hd, hrv] at hir
        · exact ih hnd' h' a ha
      cases he : entries key with
      | none =>
        simp only [registeredAppsLoop, hd, he] at h
        exact skipCase h (by simp [entryRevoked, he])
      | some content =>
        cases hemp : content.isEmpty with
        | true =>
          simp only [registeredAppsLoop, hd, he, hemp] at h
          exact skipCase h (by simp [entryRevoked, he, hemp])
        | false =>
          cases hdc : env.decrypt content app.keys.enc_key with
          | error e => simp [registeredAppsLoop, hd, he, hemp, hdc] at h
          | ok pt =>
            cases hds : env.deser pt with
            | error e =>
              simp [registeredAppsLoop, hd, he, hemp, hdc, hds] at h
            | ok ac =>
              cases ht : registeredAppsLoop env nonce entries rest with
              | error e =>
                simp [registeredAppsLoop, hd, he, hemp, hdc, hds, ht] at h
              | ok tail =>
                simp [registeredAppsLoop, hd, he, hemp, hdc, hds, ht] at h
                subst h
                rcases List.mem_cons.mp ha with rfl | ha
                · constructor
                  · intro _
                    simp [inlineRevoked, hd, entryRevoked, he, hemp]
                  · intro _
                    exact List.mem_map.mpr ⟨_, List.mem_cons_self _ _, rfl⟩
                · have hiff := ih hnd' ht a ha
                  constructor
                  · intro hx
                    obtain ⟨r, hrl, hr⟩ := List.mem_map.mp hx
                    rcases List.mem_cons.mp hrl with rfl | hrl
                    · refine absurd (List.mem_map.mpr ⟨a, ha, ?_⟩) hni
                      rw [← hr]
                    · exact hiff.mp (List.mem_map.mpr ⟨r, hrl, hr⟩)
                  · intro hir
                    obtain ⟨r, hrl, hr⟩ := List.mem_map.mp (hiff.mpr hir)
                    exact List.mem_map.mpr ⟨r, List.mem_cons_of_mem _ hrl, hr⟩

lemma app_state_of_absent {env : Env} {nonceOpt : Option Nonce}
    {entries : Entries} {cfg : Registry} {app_id : String}
    (hl : lookupById cfg app_id = none) :
    app_state env nonceOpt entries cfg app_id = .ok .NotAuthenticated := by
  simp [app_state, hl]

lemma app_state_ok_cases {env : Env} {nonce : Nonce} {entries : Entries}
    {cfg : Registry} {app_id : String} {app : AppInfo} {s : AppState}
    (hl : lookupById cfg app_id = some app)
    (hs : app_state env (some nonce) entries cfg app_id = .ok s) :
    ∃ k, env.deriveKey app_id app.keys.enc_key nonce = .ok k ∧
      (s = .Revoked ↔ entryRevoked entries k = true) ∧
      (s = .Revoked ∨ s = .Authenticated) ∧
      (s = .Authenticated →
        ∃ content pt ac, entries k = some content ∧
          content.isEmpty = false ∧
          env.decrypt content app.keys.enc_key = .ok pt ∧
          env.deser pt = .ok ac) := by
  cases hd : env.deriveKey app_id app.keys.enc_key nonce with
  | error e => simp [app_state, hl, hd] at hs
  | ok k =>
    refine ⟨k, rfl, ?_⟩
    cases he : entries k with
    | none =>
      simp [app_state, hl, hd, he] at hs
      subst hs
      simp [entryRevoked, he]
    | some content =>
      cases hemp : content.isEmpty with
      | true =>
        simp [app_state, hl, hd, he, hemp] at hs
        subst hs
        simp [entryRevoked, he, hemp]
      | false =>
        cases hdc : env.decrypt content app.keys.enc_key with
        | error e => simp [app_state, hl, hd, he, hemp, hdc] at hs
        | ok pt =>
          cases hds : env.deser pt with
          | error e => simp [app_state, hl, hd, he, hemp, hdc, hds] at hs
          | ok ac =>
            simp [app_state, hl, hd, he, hemp, hdc, hds] at hs
            subst hs
            refine ⟨by simp [entryRevoked, he, hemp], Or.inr rfl,
              fun _ => ⟨content, pt, ac, rfl, hemp, hdc, hds⟩⟩

lemma app_state_revoked_of {env : Env} {nonce : Nonce} {entries : Entries}
    {cfg : Registry} {app_id : String} {app : AppInfo} {k : LookupKey}
    (hl : lookupById cfg app_id = some app)
    (hd : env.deriveKey app_id app.keys.enc_key nonce = .ok k)
    (hrv : entryRevoked entries k = true) :
    app_state env (some nonce) entries cfg app_id = .ok .Revoked := by
  unfold entryRevoked at hrv
  cases he : entries k with
  | none => simp [app_state, hl, hd, he]
  | some content =>
    rw [he] at hrv
    simp at hrv
    subst hrv
    simp [app_state, hl, hd, he]

lemma app_state_auth_of {env : Env} {nonce : Nonce} {entries : Entries}
    {cfg : Registry} {app_id : String} {app : AppInfo} {k : LookupKey}
    {content pt : Bytes} {ac : AccessContainerEntry}
    (hl : lookupById cfg app_id = some app)
    (hd : env.deriveKey app_id app.keys.enc_key nonce = .ok k)
    (he : entries k = some content) (hemp : content.isEmpty = false)
    (hdc : env.decrypt content app.keys.enc_key = .ok pt)
    (hds : env.deser pt = .ok ac) :
    app_state env (some nonce) entries cfg app_id = .ok .Authenticated := by
  simp [app_state, hl, hd, he, hemp, hdc, hds]

lemma rekeyApps_eq_none_iff {cfg : Registry} {pk : PubKey} :
    rekeyApps cfg pk = none ↔ ∀ a ∈ cfg, a.keys.owner_key ≠ pk := by
  simp [rekeyApps, List.find?_eq_none]

lemma rekeyApps_eq_some {cfg : Registry} {pk : PubKey}
    {i : AppExchangeInfo} (h : rekeyApps cfg pk = some i) :
    ∃ a, a ∈ cfg ∧ a.keys.owner_key = pk ∧ a.info = i := by
  rw [rekeyApps] at h
  obtain ⟨a, ha, hfa⟩ := Option.map_eq_some'.mp h
  have hmem := List.mem_reverse.mp (List.mem_of_find?_eq_some ha)
  have hpred := List.find?_some ha
  exact ⟨a, hmem, by simpa using hpred, hfa⟩

lemma rekeyApps_isSome_iff {cfg : Registry} {pk : PubKey} :
    (rekeyApps cfg pk).isSome = true ↔
      ∃ a ∈ cfg, a.keys.owner_key = pk := by
  constructor
  · intro h
    obtain ⟨i, hi⟩ := Option.isSome_iff_exists.mp h
    obtain ⟨a, ha, hk, _⟩ := rekeyApps_eq_some hi
    exact ⟨a, ha, hk⟩
  · intro ⟨a, ha, hk⟩
    cases hr : rekeyApps cfg pk with
    | some i => rfl
    | none => exact absurd hk (rekeyApps_eq_none_iff.mp hr a ha)

lemma accessRecord_sign_key {cfg : Registry} {pk : PubKey}
    {pset : PermSet} : (accessRecord cfg pk pset).sign_key = pk := by
  cases h : rekeyApps cfg pk <;> simp [accessRecord, h]

lemma accessRecord_permissions {cfg : Registry} {pk : PubKey}
    {pset : PermSet} : (accessRecord cfg pk pset).permissions = pset := by
  cases h : rekeyApps cfg pk <;> simp [accessRecord, h]

lemma apps_accessing_eq_filterMap (perms : List (User × PermSet))
    (cfg : Registry) :
    auth_apps_accessing_mutable_data perms cfg =
      perms.filterMap (fun p =>
        match p.1 with
        | .anyone => none
        | .key pk => some (accessRecord cfg pk p.2)) := rfl

lemma apps_accessing_mem {perms : List (User × PermSet)} {cfg : Registry}
    {rec : AppAccess}
    (h : rec ∈ auth_apps_accessing_mutable_data perms cfg) :
    ∃ pk pset, (User.key pk, pset) ∈ perms ∧
      rec = accessRecord cfg pk pset := by
  rw [apps_accessing_eq_filterMap] at h
  obtain ⟨p, hp, hf⟩ := List.mem_filterMap.mp h
  cases hu : p.1 with
  | anyone => rw [hu] at hf; cases hf
  | key pk =>
    rw [hu] at hf
    refine ⟨pk, p.2, ?_, by injection hf with h'; exact h'.symm⟩
    have hpe : (User.key pk, p.2) = p := by rw [← hu]
    rw [hpe]
    exact hp

lemma apps_accessing_cons_anyone (ps : PermSet)
    (rest : List (User × PermSet)) (cfg : Registry) :
    auth_apps_accessing_mutable_data ((User.anyone, ps) :: rest) cfg =
      auth_apps_accessing_mutable_data rest cfg := rfl

lemma apps_accessing_cons_key (q : PubKey) (ps : PermSet)
    (rest : List (User × PermSet)) (cfg : Registry) :
    auth_apps_accessing_mutable_data ((User.key q, ps) :: rest) cfg =
      accessRecord cfg q ps :: auth_apps_accessing_mutable_data rest cfg :=
  rfl

lemma apps_accessing_filter_eq {cfg : Registry} {pk : PubKey}
    {pset : PermSet} :
    ∀ {perms : List (User × PermSet)},
      (perms.map Prod.fst).Nodup →
      (User.key pk, pset) ∈ perms →
      (auth_apps_accessing_mutable_data perms cfg).filter
          (fun rec => rec.sign_key == pk) = [accessRecord cfg pk pset] := by
  intro perms
  induction perms with
  | nil => intro _ hm; simp at hm
  | cons p rest ih =>
    obtain ⟨u, ps⟩ := p
    intro hnd hm
    have hni : u ∉ rest.map Prod.fst := (List.nodup_cons.mp hnd).1
    have hnd' : (rest.map Prod.fst).Nodup := (List.nodup_cons.mp hnd).2
    cases u with
    | anyone =>
      rw [apps_accessing_cons_anyone]
      rcases List.mem_cons.mp hm with heq | hm'
      · simp at heq
      · exact ih hnd' hm'
    | key q =>
      rw [apps_accessing_cons_key]
      rcases List.mem_cons.mp hm with heq | hm'
      · have hq : pk = q := by
          have := congrArg Prod.fst heq
          simpa using this
        have hps : pset = ps := congrArg Prod.snd heq
        subst hq
        subst hps
        have hcond : ((accessRecord cfg pk pset).sign_key == pk) = true := by
          rw [accessRecord_sign_key]
          exact beq_self_eq_true pk
        have hrest :
            (auth_apps_accessing_mutable_data rest cfg).filter
              (fun rec => rec.sign_key == pk) = [] := by
          rw [List.filter_eq_nil_iff]
          intro rec hrec
          obtain ⟨q', pset', hmem', hrec'⟩ := apps_accessing_mem hrec
          subst hrec'
          rw [accessRecord_sign_key]
          intro hqq
          have hq' : q' = pk := by simpa using hqq
          subst hq'
          exact hni (List.mem_map.mpr ⟨_, hmem', rfl⟩)
        rw [List.filter_cons, hcond, if_pos rfl, hrest]
      · have hq : q ≠ pk := by
          intro hqq
          subst hqq
          exact hni (List.mem_map.mpr ⟨_, hm', rfl⟩)
        have hcond : ((accessRecord cfg q ps).sign_key == pk) = false := by
          rw [accessRecord_sign_key]
          exact beq_false_of_ne hq
        rw [List.filter_cons, hcond]
        simp only [Bool.false_eq_true, if_false]
        exact ih hnd' hm'

lemma revokedAppsLoop_congr_env {env env' : Env} {nonce : Nonce}
    {entries : Entries} (hk : env.deriveKey = env'.deriveKey) :
    ∀ cfg : Registry,
      revokedAppsLoop env nonce entries cfg =
        revokedAppsLoop env' nonce entries cfg := by
  intro cfg
  induction cfg with
  | nil => rfl
  | cons app rest ih =>
    rw [revokedAppsLoop, revokedAppsLoop, ← hk, ih]

lemma revokedAppsLoop_error_src {env : Env} {nonce : Nonce}
    {entries : Entries} :
    ∀ {cfg : Registry} {e : AuthError},
      revokedAppsLoop env nonce entries cfg = .error e →
      ∃ a ∈ cfg, env.deriveKey a.info.id a.keys.enc_key nonce = .error e := by
  intro cfg
  induction cfg with
  | nil => intro e h; simp [revokedAppsLoop] at h
  | cons app rest ih =>
    intro e h
    cases hd : env.deriveKey app.info.id app.keys.enc_key nonce with
    | error e' =>
      simp [revokedAppsLoop, hd] at h
      subst h
      exact ⟨app, List.mem_cons_self _ _, hd⟩
    | ok key =>
      cases ht : revokedAppsLoop env nonce entries rest with
      | error e' =>
        simp [revokedAppsLoop, hd, ht] at h
        subst h
        obtain ⟨a, ha, hda⟩ := ih ht
        exact ⟨a, List.mem_cons_of_mem _ ha, hda⟩
      | ok tail => simp [revokedAppsLoop, hd, ht] at h

/-! Claim theorems. -/

/-- C1: for every fixed joint snapshot of the config registry (with
distinct app ids) and the access container (same entry set, same nonce)
on which both listing calls succeed, every app of the registry appears
in exactly one of the two outputs: in the revoked-apps listing or among
the registered-apps listing's app infos, never in both and never in
neither. -/
theorem C1_listings_partition_registry (env : Env) (nonceOpt : Option Nonce)
    (entries : Entries) (cfg : Registry)
    (rvk : List AppExchangeInfo) (reg : List RegisteredApp)
    (hnd : (cfg.map (fun a => a.info.id)).Nodup)
    (hr : auth_revoked_apps env nonceOpt entries cfg = .ok rvk)
    (hg : auth_registered_apps env nonceOpt entries cfg = .ok reg)
    (a : AppInfo) (ha : a ∈ cfg) :
    (a.info ∈ rvk ∧ a.info ∉ reg.map (fun r => r.app_info)) ∨
      (a.info ∉ rvk ∧ a.info ∈ reg.map (fun r => r.app_info)) := by
  cases nonceOpt with
  | none => simp [auth_revoked_apps] at hr
  | some nonce =>
    rw [auth_revoked_apps] at hr
    rw [auth_registered_apps] at hg
    have h1 := revokedAppsLoop_mem_iff hnd hr a ha
    have h2 := registeredAppsLoop_mem_iff hnd hg a ha
    cases hir : inlineRevoked env nonce entries a with
    | true =>
      left
      refine ⟨h1.mpr hir, ?_⟩
      intro hx
      have hc := h2.mp hx
      rw [hir] at hc
      cases hc
    | false =>
      right
      refine ⟨?_, h2.mpr hir⟩
      intro hx
      have hc := h1.mp hx
      rw [hc] at hir
      cases hir

/-- C2, counterexample: the claim says the classification yields
`Revoked` when the entry "decrypts/deserializes to an empty permission
set". Here app "a" is in the registry, its entry is present with
non-empty stored content `[9]`, and that content decrypts and
deserializes to the empty permission set `[]` — yet the classification
yields `Authenticated`, not `Revoked`: only the stored (encrypted)
content's emptiness is consulted, never the decrypted value. -/
theorem C2_counterexample :
    lookupById [appA1] "a" = some appA1 ∧
    entriesA 1 = some [9] ∧
    ([9] : Bytes).isEmpty = false ∧
    envC2.decrypt [9] appA1.keys.enc_key = .ok [9] ∧
    envC2.deser [9] = .ok [] ∧
    app_state envC2 (some 0) entriesA [appA1] "a" = .ok .Authenticated ∧
    app_state envC2 (some 0) entriesA [appA1] "a" ≠ .ok .Revoked := by
  have hEval :
      app_state envC2 (some 0) entriesA [appA1] "a" = .ok .Authenticated :=
    rfl
  refine ⟨rfl, rfl, rfl, rfl, rfl, hEval, ?_⟩
  rw [hEval]
  simp

/-- C2, amended: for an app id absent from the registry the
classification yields `NotAuthenticated` regardless of access-container
content; for an app id present in the registry (with the nonce available
and key derivation succeeding) it yields `Revoked` iff the
access-container entry is absent or its stored content is empty, and
`Authenticated` iff the entry is present with non-empty stored content
that decrypts and deserializes successfully (whatever the decrypted
permission set is — decryption/deserialization failures are hard errors,
not classifications). -/
theorem C2_classify (env : Env) (nonceOpt : Option Nonce)
    (entries : Entries) (cfg : Registry) (app_id : String) :
    (lookupById cfg app_id = none →
      app_state env nonceOpt entries cfg app_id = .ok .NotAuthenticated) ∧
    (∀ app nonce k, lookupById cfg app_id = some app →
      nonceOpt = some nonce →
      env.deriveKey app_id app.keys.enc_key nonce = .ok k →
      ((app_state env nonceOpt entries cfg app_id = .ok .Revoked ↔
          entryRevoked entries k = true) ∧
        (app_state env nonceOpt entries cfg app_id = .ok .Authenticated ↔
          entryRevoked entries k = false ∧
            ∃ content pt ac, entries k = some content ∧
              env.decrypt content app.keys.enc_key = .ok pt ∧
              env.deser pt = .ok ac))) := by
  refine ⟨fun hl => app_state_of_absent hl, ?_⟩
  intro app nonce k hl hn hd
  subst hn
  refine ⟨⟨?_, ?_⟩, ⟨?_, ?_⟩⟩
  · intro hs
    obtain ⟨k', hd', hiff, _, _⟩ := app_state_ok_cases hl hs
    have hkk : k = k' := Except.ok.inj (hd.symm.trans hd')
    subst hkk
    exact hiff.mp rfl
  · intro hrv
    exact app_state_revoked_of hl hd hrv
  · intro hs
    obtain ⟨k', hd', _, _, hauth⟩ := app_state_ok_cases hl hs
    have hkk : k = k' := Except.ok.inj (hd.symm.trans hd')
    subst hkk
    obtain ⟨content, pt, ac, he, hemp, hdc, hds⟩ := hauth rfl
    exact ⟨by simp [entryRevoked, he, hemp], content, pt, ac, he, hdc, hds⟩
  · rintro ⟨hrv, content, pt, ac, he, hdc, hds⟩
    have hemp : content.isEmpty = false := by
      simpa [entryRevoked, he] using hrv
    exact app_state_auth_of hl hd he hemp hdc hds

/-- C3: the revocation executor's guard fails with `AppNotRevoked`
(code: `AuthError::from("App is not revoked")`) on an `Authenticated`
app and with `UnknownApp` on a `NotAuthenticated` one, leaving the state
untouched; only on a `Revoked` classification does it proceed, removing
the app from the registry snapshot written at `next_version` of the
listed version. -/
theorem C3_rm_revoked_guard (env : Env) (nonceOpt : Option Nonce)
    (te : String → Option AuthError) (st : St) (app_id : String) :
    (app_state env nonceOpt st.entries st.registry app_id =
        .ok .Authenticated →
      auth_rm_revoked_app env nonceOpt te st app_id =
        (.error appNotRevokedError, st)) ∧
    (app_state env nonceOpt st.entries st.registry app_id =
        .ok .NotAuthenticated →
      auth_rm_revoked_app env nonceOpt te st app_id =
        (.error .ipcUnknownApp, st)) ∧
    (app_state env nonceOpt st.entries st.registry app_id = .ok .Revoked →
      (auth_rm_revoked_app env nonceOpt te st app_id).2.registry =
        st.registry.filter (fun a => !(a.info.id == app_id)) ∧
      (auth_rm_revoked_app env nonceOpt te st app_id).2.version =
        next_version st.version) := by
  refine ⟨fun h => by simp [auth_rm_revoked_app, h],
          fun h => by simp [auth_rm_revoked_app, h],
          fun h => ?_⟩
  cases hl : lookupById st.registry app_id with
  | none => simp [app_state_of_absent hl] at h
  | some app =>
    cases hte : te app_id with
    | none => simp [auth_rm_revoked_app, h, remove_app, hl, hte, next_version]
    | some e => simp [auth_rm_revoked_app, h, remove_app, hl, hte, next_version]

/-- C4: when the guard fails — `UnknownApp` for an app id that is
`NotAuthenticated`, `AppNotRevoked` for one that is `Authenticated` —
the whole state is returned unchanged: no registry write, no
access-container change, and no teardown call happen on these error
paths. -/
theorem C4_guard_failure_no_mutation (env : Env) (nonceOpt : Option Nonce)
    (te : String → Option AuthError) (st : St) (app_id : String)
    (h : app_state env nonceOpt st.entries st.registry app_id =
          .ok .Authenticated ∨
        app_state env nonceOpt st.entries st.registry app_id =
          .ok .NotAuthenticated) :
    (auth_rm_revoked_app env nonceOpt te st app_id).2 = st ∧
    ∃ e, (auth_rm_revoked_app env nonceOpt te st app_id).1 = .error e := by
  rcases h with h | h
  · exact ⟨by simp [auth_rm_revoked_app, h],
      appNotRevokedError, by simp [auth_rm_revoked_app, h]⟩
  · exact ⟨by simp [auth_rm_revoked_app, h],
      .ipcUnknownApp, by simp [auth_rm_revoked_app, h]⟩

/-- C5: the private-container teardown runs only after the registry
removal has succeeded (any teardown call implies the result state's
registry already has the app removed at the bumped version, from a
`Revoked` classification); and if the teardown then fails, its error is
surfaced while the registry removal stays in place. -/
theorem C5_teardown_after_removal (env : Env) (nonceOpt : Option Nonce)
    (te : String → Option AuthError) (st : St) (app_id : String) :
    ((auth_rm_revoked_app env nonceOpt te st app_id).2.teardownCalls ≠
        st.teardownCalls →
      (auth_rm_revoked_app env nonceOpt te st app_id).2.teardownCalls =
        st.teardownCalls ++ [app_id] ∧
      (auth_rm_revoked_app env nonceOpt te st app_id).2.registry =
        st.registry.filter (fun a => !(a.info.id == app_id)) ∧
      (auth_rm_revoked_app env nonceOpt te st app_id).2.version =
        next_version st.version ∧
      app_state env nonceOpt st.entries st.registry app_id =
        .ok .Revoked) ∧
    (∀ e, te app_id = some e →
      app_state env nonceOpt st.entries st.registry app_id = .ok .Revoked →
      (auth_rm_revoked_app env nonceOpt te st app_id).1 = .error e ∧
      (auth_rm_revoked_app env nonceOpt te st app_id).2.registry =
        st.registry.filter (fun a => !(a.info.id == app_id))) := by
  constructor
  · intro hne
    cases hs : app_state env nonceOpt st.entries st.registry app_id with
    | error e => simp [auth_rm_revoked_app, hs] at hne
    | ok s =>
      cases s with
      | Authenticated => simp [auth_rm_revoked_app, hs] at hne
      | NotAuthenticated => simp [auth_rm_revoked_app, hs] at hne
      | Revoked =>
        cases hl : lookupById st.registry app_id with
        | none => simp [app_state_of_absent hl] at hs
        | some app =>
          cases hte : te app_id with
          | none =>
            refine ⟨?_, ?_, ?_, rfl⟩ <;>
              simp [auth_rm_revoked_app, hs, remove_app, hl, hte,
                next_version]
          | some e =>
            refine ⟨?_, ?_, ?_, rfl⟩ <;>
              simp [auth_rm_revoked_app, hs, remove_app, hl, hte,
                next_version]
  · intro e hte hs
    cases hl : lookupById st.registry app_id with
    | none => simp [app_state_of_absent hl] at hs
    | some app =>
      constructor <;> simp [auth_rm_revoked_app, hs, remove_app, hl, hte]

/-- C6: the listings never return a partial list. If any per-app step
fails hard — key derivation for any registry app (both listings), or
decryption/deserialization of any present non-empty entry (registered
listing) — the whole call yields an error, so no app entries are emitted
at all (the success callback only fires with the complete list). -/
theorem C6_abort_on_hard_error (env : Env) (nonce : Nonce)
    (entries : Entries) (cfg : Registry) (a : AppInfo) (ha : a ∈ cfg) :
    ((∃ e, env.deriveKey a.info.id a.keys.enc_key nonce = .error e) →
      (∃ e, auth_revoked_apps env (some nonce) entries cfg = .error e) ∧
      (∃ e, auth_registered_apps env (some nonce) entries cfg =
        .error e)) ∧
    (∀ k content,
      env.deriveKey a.info.id a.keys.enc_key nonce = .ok k →
      entries k = some content → content.isEmpty = false →
      ((∃ e, env.decrypt content a.keys.enc_key = .error e) ∨
        (∃ pt e, env.decrypt content a.keys.enc_key = .ok pt ∧
          env.deser pt = .error e)) →
      ∃ e, auth_registered_apps env (some nonce) entries cfg =
        .error e) := by
  constructor
  · rintro ⟨e, he⟩
    constructor
    · apply except_error_of_not_ok
      intro l hl
      rw [auth_revoked_apps] at hl
      obtain ⟨k, hk⟩ := revokedAppsLoop_deriveOk hl a ha
      rw [he] at hk
      cases hk
    · apply except_error_of_not_ok
      intro l hl
      rw [auth_registered_apps] at hl
      obtain ⟨k, hk, _⟩ := registeredAppsLoop_stepsOk hl a ha
      rw [he] at hk
      cases hk
  · intro k content hd he hemp hbad
    apply except_error_of_not_ok
    intro l hl
    rw [auth_registered_apps] at hl
    obtain ⟨k', hk', hrest⟩ := registeredAppsLoop_stepsOk hl a ha
    have hkk : k = k' := Except.ok.inj (hd.symm.trans hk')
    subst hkk
    obtain ⟨pt, ac, hdc, hds⟩ := hrest content he hemp
    rcases hbad with ⟨e, hke⟩ | ⟨pt', e, hpt', hke⟩
    · rw [hdc] at hke
      cases hke
    · have hpp : pt' = pt := Except.ok.inj (hpt'.symm.trans hdc)
      subst hpp
      rw [hds] at hke
      cases hke

/-- C7: the permission-holder listing never emits an entry for the
"anyone" sentinel (every output record corresponds to some keyed
principal of the permission set); each keyed principal appears exactly
once, as the single record `accessRecord`; and that record carries the
app id and name exactly when the principal's key matches a registry
owner key, and only the key and permissions otherwise. -/
theorem C7_permissions_view (perms : List (User × PermSet))
    (cfg : Registry) (hnd : (perms.map Prod.fst).Nodup) :
    (∀ rec ∈ auth_apps_accessing_mutable_data perms cfg,
      (User.key rec.sign_key, rec.permissions) ∈ perms) ∧
    (∀ pk pset, (User.key pk, pset) ∈ perms →
      (auth_apps_accessing_mutable_data perms cfg).filter
        (fun rec => rec.sign_key == pk) = [accessRecord cfg pk pset]) ∧
    (∀ pk pset,
      ((∃ a ∈ cfg, a.keys.owner_key = pk) →
        ∃ i, rekeyApps cfg pk = some i ∧
          accessRecord cfg pk pset =
            { sign_key := pk, permissions := pset,
              name := some i.name, app_id := some i.id }) ∧
      ((∀ a ∈ cfg, a.keys.owner_key ≠ pk) →
        accessRecord cfg pk pset =
          { sign_key := pk, permissions := pset,
            name := none, app_id := none })) := by
  refine ⟨?_, fun pk pset hm => apps_accessing_filter_eq hnd hm, ?_⟩
  · intro rec hrec
    obtain ⟨pk, pset, hm, hre⟩ := apps_accessing_mem hrec
    subst hre
    rw [accessRecord_sign_key, accessRecord_permissions]
    exact hm
  · intro pk pset
    constructor
    · intro hex
      have hso := rekeyApps_isSome_iff.mpr hex
      obtain ⟨i, hi⟩ := Option.isSome_iff_exists.mp hso
      exact ⟨i, hi, by simp [accessRecord, hi]⟩
    · intro hall
      have hnone : rekeyApps cfg pk = none := rekeyApps_eq_none_iff.mpr hall
      simp [accessRecord, hnone]

/-- C8: for any app of the registry on which `app_state` returns a
classification, the revoked/authenticated decision computed inline by
each listing agrees with it: the app is in the revoked listing's output
iff `app_state` says `Revoked`, and among the registered listing's
output iff it says `Authenticated`. -/
theorem C8_listings_agree_with_app_state (env : Env) (nonce : Nonce)
    (entries : Entries) (cfg : Registry) (a : AppInfo) (s : AppState)
    (hnd : (cfg.map (fun x => x.info.id)).Nodup) (ha : a ∈ cfg)
    (hs : app_state env (some nonce) entries cfg a.info.id = .ok s) :
    (∀ rvk, auth_revoked_apps env (some nonce) entries cfg = .ok rvk →
      (a.info ∈ rvk ↔ s = .Revoked)) ∧
    (∀ reg, auth_registered_apps env (some nonce) entries cfg = .ok reg →
      (a.info ∈ reg.map (fun r => r.app_info) ↔ s = .Authenticated)) := by
  have hl := lookupById_of_mem hnd ha
  obtain ⟨k, hd, hiff, hor, _⟩ := app_state_ok_cases hl hs
  have hinl : inlineRevoked env nonce entries a = entryRevoked entries k := by
    simp [inlineRevoked, hd]
  constructor
  · intro rvk hr
    rw [auth_revoked_apps] at hr
    have h1 := revokedAppsLoop_mem_iff hnd hr a ha
    rw [h1, hinl, ← hiff]
  · intro reg hg
    rw [auth_registered_apps] at hg
    have h2 := registeredAppsLoop_mem_iff hnd hg a ha
    rw [h2, hinl]
    constructor
    · intro hrv
      rcases hor with hsr | hsa
      · rw [hiff.mp hsr] at hrv
        cases hrv
      · exact hsa
    · intro hsa
      subst hsa
      cases hrv : entryRevoked entries k with
      | false => rfl
      | true => exact AppState.noConfusion (hiff.mpr hrv)

/-- C9: the revoked-apps listing never decrypts or deserializes entry
content: its result is unchanged under any replacement of the decryption
and deserialization collaborators (same key derivation); and when key
derivation can only fail with `EncodingError` (as
`access_container_enc_key` does), any error it returns is the missing
nonce error or `EncodingError` — never `DecryptionError` or
`DeserializationError`, even on entries whose corrupt content makes the
registered-apps listing fail on the same snapshot. -/
theorem C9_revoked_listing_never_decrypts (env env' : Env)
    (nonceOpt : Option Nonce) (entries : Entries) (cfg : Registry)
    (hk : env.deriveKey = env'.deriveKey) :
    auth_revoked_apps env nonceOpt entries cfg =
      auth_revoked_apps env' nonceOpt entries cfg ∧
    (∀ e, (∀ i s n e', env.deriveKey i s n = .error e' →
        e' = .encodingError) →
      auth_revoked_apps env nonceOpt entries cfg = .error e →
      e = noNonceError ∨ e = .encodingError) := by
  constructor
  · cases nonceOpt with
    | none => rfl
    | some nonce =>
      rw [auth_revoked_apps, auth_revoked_apps]
      exact revokedAppsLoop_congr_env hk cfg
  · intro e henc herr
    cases nonceOpt with
    | none =>
      left
      rw [auth_revoked_apps] at herr
      exact (Except.error.inj herr).symm
    | some nonce =>
      right
      rw [auth_revoked_apps] at herr
      obtain ⟨a, _, hde⟩ := revokedAppsLoop_error_src herr
      exact henc _ _ _ _ hde

/-- C10: when two distinct registry records share the same owner public
key, the re-keying into a key-indexed map keeps a single surviving
record for that key, and every output record of the permission-holder
listing whose key matches is attributed to that one surviving app — one
key is never attributed to more than one app. -/
theorem C10_rekey_single_survivor (perms : List (User × PermSet))
    (cfg : Registry) (pk : PubKey) (a b : AppInfo)
    (ha : a ∈ cfg) (hb : b ∈ cfg) (hab : a ≠ b)
    (hka : a.keys.owner_key = pk) (hkb : b.keys.owner_key = pk) :
    ∃ w, rekeyApps cfg pk = some w ∧
      (∃ c ∈ cfg, c.keys.owner_key = pk ∧ c.info = w) ∧
      ∀ rec ∈ auth_apps_accessing_mutable_data perms cfg,
        rec.sign_key = pk →
          rec.name = some w.name ∧ rec.app_id = some w.id := by
  have hsome : (rekeyApps cfg pk).isSome :=
    rekeyApps_isSome_iff.mpr ⟨a, ha, hka⟩
  obtain ⟨w, hw⟩ := Option.isSome_iff_exists.mp hsome
  obtain ⟨c, hc, hck, hcw⟩ := rekeyApps_eq_some hw
  refine ⟨w, hw, ⟨c, hc, hck, hcw⟩, ?_⟩
  intro rec hrec hsk
  obtain ⟨q, pset, hm, hre⟩ := apps_accessing_mem hrec
  subst hre
  rw [accessRecord_sign_key] at hsk
  subst hsk
  simp [accessRecord, hw]

/-- C1 witness at the two-app snapshot: app "a" is registered-only,
so it falls in exactly one listing output. -/
theorem C1_witness :
    ((cfgA.map (fun a => a.info.id)).Nodup ∧
      auth_revoked_apps envA (some 0) entriesA cfgA = .ok [appA2.info] ∧
      auth_registered_apps envA (some 0) entriesA cfgA =
        .ok [{ app_info := appA1.info, containers := [("docs", 1)] }] ∧
      appA1 ∈ cfgA) ∧
    ((appA1.info ∈ [appA2.info] ∧
        appA1.info ∉
          [({ app_info := appA1.info, containers := [("docs", 1)] } :
            RegisteredApp)].map (fun r => r.app_info)) ∨
      (appA1.info ∉ [appA2.info] ∧
        appA1.info ∈
          [({ app_info := appA1.info, containers := [("docs", 1)] } :
            RegisteredApp)].map (fun r => r.app_info))) := by
  have hnd : (cfgA.map (fun a => a.info.id)).Nodup := by decide
  have hr : auth_revoked_apps envA (some 0) entriesA cfgA =
      .ok [appA2.info] := rfl
  have hg : auth_registered_apps envA (some 0) entriesA cfgA =
      .ok [{ app_info := appA1.info, containers := [("docs", 1)] }] := rfl
  have ha : appA1 ∈ cfgA := by decide
  exact ⟨⟨hnd, hr, hg, ha⟩,
    C1_listings_partition_registry envA (some 0) entriesA cfgA _ _
      hnd hr hg appA1 ha⟩

/-- C2 witness: the amended classification at an absent id and at a
registered id. -/
theorem C2_witness :
    (lookupById cfgA "z" = none ∧
      app_state envA (some 0) entriesA cfgA "z" = .ok .NotAuthenticated) ∧
    (lookupById cfgA "a" = some appA1 ∧
      envA.deriveKey "a" appA1.keys.enc_key 0 = .ok 1 ∧
      ((app_state envA (some 0) entriesA cfgA "a" = .ok .Revoked ↔
          entryRevoked entriesA 1 = true) ∧
        (app_state envA (some 0) entriesA cfgA "a" = .ok .Authenticated ↔
          entryRevoked entriesA 1 = false ∧
            ∃ content pt ac, entriesA 1 = some content ∧
              envA.decrypt content appA1.keys.enc_key = .ok pt ∧
              envA.deser pt = .ok ac))) := by
  refine ⟨⟨rfl, ?_⟩, ⟨rfl, rfl, ?_⟩⟩
  · exact (C2_classify envA (some 0) entriesA cfgA "z").1 rfl
  · exact (C2_classify envA (some 0) entriesA cfgA "a").2 appA1 0 1
      rfl rfl rfl

/-- C3 witness: the guard at an authenticated, an unknown, and a
revoked app over the `stA` snapshot. -/
theorem C3_witness :
    (app_state envA (some 0) stA.entries stA.registry "a" =
        .ok .Authenticated ∧
      auth_rm_revoked_app envA (some 0) teNone stA "a" =
        (.error appNotRevokedError, stA)) ∧
    (app_state envA (some 0) stA.entries stA.registry "z" =
        .ok .NotAuthenticated ∧
      auth_rm_revoked_app envA (some 0) teNone stA "z" =
        (.error .ipcUnknownApp, stA)) ∧
    (app_state envA (some 0) stA.entries stA.registry "b" =
        .ok .Revoked ∧
      (auth_rm_revoked_app envA (some 0) teNone stA "b").2.registry =
        stA.registry.filter (fun a => !(a.info.id == "b")) ∧
      (auth_rm_revoked_app envA (some 0) teNone stA "b").2.version =
        next_version stA.version) := by
  have hA : app_state envA (some 0) stA.entries stA.registry "a" =
      .ok .Authenticated := rfl
  have hN : app_state envA (some 0) stA.entries stA.registry "z" =
      .ok .NotAuthenticated := rfl
  have hR : app_state envA (some 0) stA.entries stA.registry "b" =
      .ok .Revoked := rfl
  exact ⟨⟨hA, (C3_rm_revoked_guard envA (some 0) teNone stA "a").1 hA⟩,
    ⟨hN, (C3_rm_revoked_guard envA (some 0) teNone stA "z").2.1 hN⟩,
    ⟨hR, (C3_rm_revoked_guard envA (some 0) teNone stA "b").2.2 hR⟩⟩

/-- C4 witness: removing the authenticated app "a" fails and leaves the
state exactly as it was. -/
theorem C4_witness :
    (app_state envA (some 0) stA.entries stA.registry "a" =
        .ok .Authenticated ∨
      app_state envA (some 0) stA.entries stA.registry "a" =
        .ok .NotAuthenticated) ∧
    ((auth_rm_revoked_app envA (some 0) teNone stA "a").2 = stA ∧
      ∃ e, (auth_rm_revoked_app envA (some 0) teNone stA "a").1 =
        .error e) := by
  have h : app_state envA (some 0) stA.entries stA.registry "a" =
        .ok .Authenticated ∨
      app_state envA (some 0) stA.entries stA.registry "a" =
        .ok .NotAuthenticated := Or.inl rfl
  exact ⟨h, C4_guard_failure_no_mutation envA (some 0) teNone stA "a" h⟩

/-- C5 witness: removing the revoked app "b" with a failing teardown
surfaces the teardown error while the registry removal stays. -/
theorem C5_witness :
    teFail "b" = some (.unexpected "failed to remove app container") ∧
    app_state envA (some 0) stA.entries stA.registry "b" =
      .ok .Revoked ∧
    (auth_rm_revoked_app envA (some 0) teFail stA "b").2.teardownCalls ≠
      stA.teardownCalls ∧
    ((auth_rm_revoked_app envA (some 0) teFail stA "b").2.teardownCalls =
        stA.teardownCalls ++ ["b"] ∧
      (auth_rm_revoked_app envA (some 0) teFail stA "b").2.registry =
        stA.registry.filter (fun a => !(a.info.id == "b")) ∧
      (auth_rm_revoked_app envA (some 0) teFail stA "b").2.version =
        next_version stA.version ∧
      app_state envA (some 0) stA.entries stA.registry "b" =
        .ok .Revoked) ∧
    ((auth_rm_revoked_app envA (some 0) teFail stA "b").1 =
        .error (.unexpected "failed to remove app container") ∧
      (auth_rm_revoked_app envA (some 0) teFail stA "b").2.registry =
        stA.registry.filter (fun a => !(a.info.id == "b"))) := by
  have hte : teFail "b" =
      some (.unexpected "failed to remove app container") := rfl
  have hs : app_state envA (some 0) stA.entries stA.registry "b" =
      .ok .Revoked := rfl
  have hne :
      (auth_rm_revoked_app envA (some 0) teFail stA "b").2.teardownCalls ≠
        stA.teardownCalls := by decide
  exact ⟨hte, hs, hne,
    (C5_teardown_after_removal envA (some 0) teFail stA "b").1 hne,
    (C5_teardown_after_removal envA (some 0) teFail stA "b").2 _ hte hs⟩

/-- C6 witness: a failing key derivation aborts both listings whole;
a failing decryption aborts the registered listing whole. -/
theorem C6_witness :
    (appA2 ∈ cfgA ∧
      envF.deriveKey appA2.info.id appA2.keys.enc_key 0 =
        .error .encodingError ∧
      (∃ e, auth_revoked_apps envF (some 0) entriesA cfgA = .error e) ∧
      (∃ e, auth_registered_apps envF (some 0) entriesA cfgA =
        .error e)) ∧
    (appA1 ∈ cfgA ∧
      envB.deriveKey appA1.info.id appA1.keys.enc_key 0 = .ok 1 ∧
      entriesA 1 = some [9] ∧ ([9] : Bytes).isEmpty = false ∧
      envB.decrypt [9] appA1.keys.enc_key = .error .decryptionError ∧
      (∃ e, auth_registered_apps envB (some 0) entriesA cfgA =
        .error e)) := by
  refine ⟨⟨by decide, rfl, ?_⟩, ⟨by decide, rfl, rfl, rfl, rfl, ?_⟩⟩
  · exact (C6_abort_on_hard_error envF 0 entriesA cfgA appA2
      (by decide)).1 ⟨.encodingError, rfl⟩
  · exact (C6_abort_on_hard_error envB 0 entriesA cfgA appA1
      (by decide)).2 1 [9] rfl rfl rfl (Or.inl ⟨.decryptionError, rfl⟩)

/-- C7 witness: the keyed principal 10 of `permsA` appears exactly once
in the output, as its identified record. -/
theorem C7_witness :
    (permsA.map Prod.fst).Nodup ∧
    ((User.key 10, 3) : User × PermSet) ∈ permsA ∧
    (auth_apps_accessing_mutable_data permsA cfgA).filter
      (fun rec => rec.sign_key == 10) = [accessRecord cfgA 10 3] := by
  have hnd : (permsA.map Prod.fst).Nodup := by decide
  have hm : ((User.key 10, 3) : User × PermSet) ∈ permsA := by decide
  exact ⟨hnd, hm, (C7_permissions_view permsA cfgA hnd).2.1 10 3 hm⟩

/-- C8 witness: app "a" classifies `Authenticated` and accordingly is
absent from the revoked listing and present in the registered one. -/
theorem C8_witness :
    ((cfgA.map (fun x => x.info.id)).Nodup ∧ appA1 ∈ cfgA ∧
      app_state envA (some 0) entriesA cfgA appA1.info.id =
        .ok .Authenticated) ∧
    (appA1.info ∈ [appA2.info] ↔
      AppState.Authenticated = AppState.Revoked) ∧
    (appA1.info ∈
        [({ app_info := appA1.info, containers := [("docs", 1)] } :
          RegisteredApp)].map (fun r => r.app_info) ↔
      AppState.Authenticated = AppState.Authenticated) := by
  have hnd : (cfgA.map (fun x => x.info.id)).Nodup := by decide
  have ha : appA1 ∈ cfgA := by decide
  have hs : app_state envA (some 0) entriesA cfgA appA1.info.id =
      .ok .Authenticated := rfl
  exact ⟨⟨hnd, ha, hs⟩,
    (C8_listings_agree_with_app_state envA 0 entriesA cfgA appA1
      .Authenticated hnd ha hs).1 [appA2.info] rfl,
    (C8_listings_agree_with_app_state envA 0 entriesA cfgA appA1
      .Authenticated hnd ha hs).2
      [{ app_info := appA1.info, containers := [("docs", 1)] }] rfl⟩

/-- C9 witness: with identical key derivation, breaking decryption and
deserialization (`envB`) leaves the revoked listing's result unchanged,
even though the registered listing fails on the same snapshot. -/
theorem C9_witness :
    envA.deriveKey = envB.deriveKey ∧
    auth_revoked_apps envA (some 0) entriesA cfgA =
      auth_revoked_apps envB (some 0) entriesA cfgA ∧
    auth_registered_apps envB (some 0) entriesA cfgA =
      .error .decryptionError ∧
    auth_revoked_apps envB (some 0) entriesA cfgA = .ok [appA2.info] :=
  ⟨rfl,
    (C9_revoked_listing_never_decrypts envA envB (some 0) entriesA cfgA
      rfl).1,
    rfl, rfl⟩

/-- C10 witness: `cfgDup`'s two records share owner key 10; the output
attributes the key-10 principal to the single surviving record. -/
theorem C10_witness :
    (⟨⟨"a", "A"⟩, ⟨1, 10⟩⟩ : AppInfo) ∈ cfgDup ∧
    (⟨⟨"b", "B"⟩, ⟨2, 10⟩⟩ : AppInfo) ∈ cfgDup ∧
    (⟨⟨"a", "A"⟩, ⟨1, 10⟩⟩ : AppInfo) ≠ ⟨⟨"b", "B"⟩, ⟨2, 10⟩⟩ ∧
    (∃ w, rekeyApps cfgDup 10 = some w ∧
      (∃ c ∈ cfgDup, c.keys.owner_key = 10 ∧ c.info = w) ∧
      ∀ rec ∈ auth_apps_accessing_mutable_data permsA cfgDup,
        rec.sign_key = 10 →
          rec.name = some w.name ∧ rec.app_id = some w.id) := by
  refine ⟨by decide, by decide, by decide, ?_⟩
  exact C10_rekey_single_survivor permsA cfgDup 10
    ⟨⟨"a", "A"⟩, ⟨1, 10⟩⟩ ⟨⟨"b", "B"⟩, ⟨2, 10⟩⟩
    (by decide) (by decide) (by decide) rfl rfl
